import Mathlib

set_option maxHeartbeats 1000000

/-!
# Verification of the sq-tracer render pipeline against its specification

The repository ships `src/main.rs` (driver: argument handling, per-frame world
generation, the tile consumer `on_tile`, and the call into the pipeline).  The
modules `pipe`, `camera` and `sample` that `main.rs` uses are declared but their
sources are not in the repository snapshot, so the pipeline, the frame assembly
buffer, the cameras and the path integrator are modelled here from the
specification; definitions taken from `main.rs` itself are marked as such.

Floating-point values (`f32`/`f64`) are modelled by the real numbers, so the
geometric and radiometric definitions are noncomputable; all bookkeeping
definitions (tiling, frame assembly counting, the pipeline state machine) are
computable.
-/

/-- Modelled from the spec (data model, `RenderParams`): output size, tile edge
length, queue capacity and worker count.  `pipe.rs` is not in the snapshot; the
field set is read off the spec and the uses in `main.rs`. -/
structure RenderParams where
  width : Nat
  height : Nat
  tile_size : Nat
  tile_queue : Nat
  threads : Nat

/-- Modelled from the spec: number of tile columns, the ceiling of
width / tile_size computed with the usual integer formula. -/
def RenderParams.xTiles (p : RenderParams) : Nat :=
  (p.width + p.tile_size - 1) / p.tile_size

/-- Modelled from the spec: number of tile rows. -/
def RenderParams.yTiles (p : RenderParams) : Nat :=
  (p.height + p.tile_size - 1) / p.tile_size

/-- Modelled from the spec: derived value tiles-per-frame =
ceil(width/tile_size) * ceil(height/tile_size), as used by `main.rs` for the
progress bar total (`render_params.tiles_per_frame()`). -/
def RenderParams.tiles_per_frame (p : RenderParams) : Nat :=
  p.xTiles * p.yTiles

/-- A dispatched tile rectangle: offset and clipped size in pixels. -/
structure TileRect where
  left : Nat
  top : Nat
  width : Nat
  height : Nat
deriving DecidableEq

/-- Modelled from the spec: the tile at grid position (i, j); the last
row/column is clipped to the frame boundary, not padded. -/
def RenderParams.mkTile (p : RenderParams) (i j : Nat) : TileRect :=
  { left := i * p.tile_size
    top := j * p.tile_size
    width := min p.tile_size (p.width - i * p.tile_size)
    height := min p.tile_size (p.height - j * p.tile_size) }

/-- Modelled from the spec: the list of tiles the pipeline dispatches for one
frame, tiling width x height into tile_size-edge rectangles. -/
def RenderParams.tilesOf (p : RenderParams) : List TileRect :=
  (List.range p.yTiles).flatMap fun j =>
    (List.range p.xTiles).map fun i => p.mkTile i j

/-- A tile rectangle covers the pixel (x, y). -/
def TileRect.covers (t : TileRect) (x y : Nat) : Prop :=
  t.left ≤ x ∧ x < t.left + t.width ∧ t.top ≤ y ∧ y < t.top + t.height

/-- A finished tile as delivered to the consumer: frame index, offset, and the
rendered pixel payload (pixel type left abstract). -/
structure Tile (P : Type) where
  frame_num : Nat
  left : Nat
  top : Nat
  width : Nat
  height : Nat
  pix : Nat → Nat → P

/-- Modelled from the spec (Frame Assembly Buffer): a full-frame pixel buffer
plus the count of tiles received so far and the total computed once from
`RenderParams`. -/
structure Frame (P : Type) where
  buf : Nat → Nat → Option P
  received : Nat
  total : Nat

/-- Modelled from the spec: `uninitialized_frame()`, an empty buffer with the
tile total taken from the render parameters. -/
def RenderParams.uninitialized_frame (p : RenderParams) (P : Type) : Frame P :=
  { buf := fun _ _ => none, received := 0, total := p.tiles_per_frame }

/-- Modelled from the spec: `tile_ready` copies the tile pixels into the frame
buffer at the tile offset and counts the tile as received. -/
def Frame.tile_ready (f : Frame P) (t : Tile P) : Frame P :=
  { buf := fun x y =>
      if t.left ≤ x ∧ x < t.left + t.width ∧ t.top ≤ y ∧ y < t.top + t.height then
        some (t.pix (x - t.left) (y - t.top))
      else f.buf x y
    received := f.received + 1
    total := f.total }

/-- Modelled from the spec: `is_done` is true once the number of tiles received
equals tiles-per-frame. -/
def Frame.is_done (f : Frame P) : Bool :=
  f.received == f.total

/-- Number of tiles of frame n in a delivery trace. -/
def arrivals (ts : List (Tile P)) (n : Nat) : Nat :=
  ts.countP fun t => t.frame_num == n

/-- State of the single consumer thread in `main.rs`: the map of in-progress
Frame Assembly Buffers and the frame indices saved to disk so far (the
`image::save_buffer` calls, recorded in call order). -/
structure ConsumerState (P : Type) where
  frames : Nat → Option (Frame P)
  saved : List Nat

/-- The consumer state before any tile arrives: empty map, nothing saved. -/
def consumerStart (P : Type) : ConsumerState P :=
  { frames := fun _ => none, saved := [] }

/-- Embedding of the tile consumer `on_tile` of `src/main.rs`: look the frame
up in the map (inserting a fresh uninitialized frame on first arrival), deliver
the tile with `tile_ready`, and when `is_done` becomes true save the frame and
remove it from the map.  The progress bar and the SDL preview are external
collaborators and are not modelled; the disk save is recorded as an event. -/
def on_tile (p : RenderParams) (st : ConsumerState P) (t : Tile P) : ConsumerState P :=
  let f0 := (st.frames t.frame_num).getD (p.uninitialized_frame P)
  let f1 := f0.tile_ready t
  let done := f1.is_done
  { frames := fun n =>
      if n = t.frame_num then (if done then none else some f1) else st.frames n
    saved := if done then st.saved ++ [t.frame_num] else st.saved }

/-- Invariant of the consumer state relative to a per-frame arrival count:
a buffer is present exactly while a frame is partially assembled, carries the
exact received count and total, and each frame is saved exactly once, when its
count reaches tiles-per-frame. -/
def ConsInv (tpf : Nat) (cnt : Nat → Nat) (st : ConsumerState P) : Prop :=
  ∀ n, (∀ f, st.frames n = some f →
          f.received = cnt n ∧ f.total = tpf ∧ 0 < cnt n ∧ cnt n < tpf) ∧
    (st.frames n = none → cnt n = 0 ∨ cnt n = tpf) ∧
    st.saved.count n = (if cnt n = tpf ∧ 0 < tpf then 1 else 0)

/-- Result of the cancellation source poll (`pipe::TickResult`). -/
inductive TickResult where
  | Run : TickResult
  | Exit : TickResult
deriving DecidableEq

/-- State of the render pipeline, sequential abstraction: iteration counter of
the consumer loop, next frame index to request, whether the generator is
exhausted, tile-work dispatched but not yet consumed, tiles delivered to the
sink, and the history of dispatched frames and tiles. -/
structure PipeState (T : Type) where
  iter : Nat
  next : Nat
  exhausted : Bool
  outstanding : List T
  consumed : List T
  dispatchedFrames : List Nat
  dispatchedTiles : List T

/-- The pipeline state at start of a run. -/
def pipeStart (T : Type) : PipeState T :=
  { iter := 0, next := 0, exhausted := false, outstanding := []
    consumed := [], dispatchedFrames := [], dispatchedTiles := [] }

/-- Deliver the given tiles to the sink in order, recording them as consumed;
a sink error aborts the delivery and propagates. -/
def drainInto (sink : T → Except E Unit) (st : PipeState T) :
    List T → Except E (PipeState T)
  | [] => Except.ok st
  | t :: rest =>
    match sink t with
    | Except.error e => Except.error e
    | Except.ok _ => drainInto sink { st with consumed := st.consumed ++ [t] } rest

/-- Modelled from the spec (Tile Scheduler / Render Pipeline, `pipe.rs` not in
the snapshot): sequential abstraction of the consumer-thread loop, driven by a
fuel bound.  Each iteration first drains the tiles finished this round (the
oracle `ready` abstracts how many workers completed, modelling out-of-order
completion), then polls the cancellation source: on Exit the already-dispatched
tile work runs to completion and is delivered to the sink, and the run returns
successfully; on Run the next frame is requested from the generator, a result
of none marks clean exhaustion, and a produced frame has its tiles enqueued.
Errors from the generator or the sink propagate immediately. -/
def render_pipeline (gen : Nat → Except E (Option F)) (tilesFor : Nat → F → List T)
    (sink : T → Except E Unit) (tick : Nat → TickResult) (ready : Nat → Nat) :
    Nat → PipeState T → Except E (PipeState T)
  | 0, st => Except.ok st
  | fuel + 1, st =>
    match drainInto sink { st with outstanding := st.outstanding.drop (ready st.iter) }
        (st.outstanding.take (ready st.iter)) with
    | Except.error e => Except.error e
    | Except.ok st1 =>
      match tick st.iter with
      | TickResult.Exit => drainInto sink { st1 with outstanding := [] } st1.outstanding
      | TickResult.Run =>
        if st1.exhausted then
          if st1.outstanding.isEmpty then Except.ok st1
          else render_pipeline gen tilesFor sink tick ready fuel
            { st1 with iter := st1.iter + 1 }
        else
          match gen st1.next with
          | Except.error e => Except.error e
          | Except.ok none => render_pipeline gen tilesFor sink tick ready fuel
              { st1 with exhausted := true, iter := st1.iter + 1 }
          | Except.ok (some f) => render_pipeline gen tilesFor sink tick ready fuel
              { st1 with
                outstanding := st1.outstanding ++ tilesFor st1.next f
                dispatchedFrames := st1.dispatchedFrames ++ [st1.next]
                dispatchedTiles := st1.dispatchedTiles ++ tilesFor st1.next f
                next := st1.next + 1
                iter := st1.iter + 1 }

/-- Conservation invariant of the pipeline state: every dispatched tile is
either already consumed or still outstanding. -/
def PipeInv (st : PipeState T) : Prop :=
  st.consumed ++ st.outstanding = st.dispatchedTiles

/-- Modelled from the spec: the frame-production loop of the pipeline in
isolation, recording which frame indices are rendered.  The generator is called
at consecutive indices; a result of none ends the loop cleanly, an error
propagates. -/
def frameLoop (gen : Nat → Except E (Option F)) : Nat → Nat → Except E (List Nat)
  | _, 0 => Except.ok []
  | start, fuel + 1 =>
    match gen start with
    | Except.error e => Except.error e
    | Except.ok none => Except.ok []
    | Except.ok (some _) =>
      match frameLoop gen (start + 1) fuel with
      | Except.error e => Except.error e
      | Except.ok rest => Except.ok (start :: rest)

/-- 3-vectors over the reals, modelling the `f64` vectors of nalgebra. -/
abbrev Vec3 := ℝ × ℝ × ℝ

/-- Linear RGB radiance, modelling palette's `LinSrgb<f32>`. -/
abbrev Color := ℝ × ℝ × ℝ

/-- Euclidean inner product on `Vec3`. -/
def dot (a b : Vec3) : ℝ :=
  a.1 * b.1 + a.2.1 * b.2.1 + a.2.2 * b.2.2

/-- Cross product on `Vec3`. -/
def cross (a b : Vec3) : Vec3 :=
  (a.2.1 * b.2.2 - a.2.2 * b.2.1,
   a.2.2 * b.1 - a.1 * b.2.2,
   a.1 * b.2.1 - a.2.1 * b.1)

/-- Unit vector in the direction of v (the zero vector maps to zero). -/
noncomputable def normalize3 (v : Vec3) : Vec3 :=
  (Real.sqrt (dot v v))⁻¹ • v

/-- A world-space ray: origin and direction. -/
structure Ray3 where
  origin : Vec3
  dir : Vec3

/-- A stream of uniform random draws in [0, 1), modelling the RNG handed to
cameras and the integrator. -/
abbrev Rng := Nat → ℝ

/-- Modelled from the spec (Camera Model): a camera maps a normalized pixel
coordinate plus a source of randomness to a world-space ray, returning the
remaining stream so that decorators draw after the wrapped camera. -/
abbrev Camera := ℝ → ℝ → Rng → Ray3 × Rng

/-- An observer frame: eye position and a right-handed orthonormal basis,
modelling nalgebra's `Isometry3::new_observer_frame`. -/
structure Iso3 where
  pos : Vec3
  xAxis : Vec3
  yAxis : Vec3
  zAxis : Vec3

/-- Modelled from the spec: observer frame looking from eye towards target with
the given up hint (z towards the target, x to the right, y up). -/
noncomputable def observerFrame (eye target up : Vec3) : Iso3 :=
  let z := normalize3 (target - eye)
  let x := normalize3 (cross up z)
  let y := cross z x
  { pos := eye, xAxis := x, yAxis := y, zAxis := z }

/-- Modelled from the spec (Camera Model, `camera.rs` not in the snapshot):
perspective projection building a ray from the eye through the view-plane point
selected by the normalized pixel coordinate, vertical field of view and
near-plane distance; the far plane is informational only. -/
noncomputable def PerspectiveCamera (iso : Iso3) (fov near far : ℝ) : Camera :=
  fun u v rng =>
    let half := Real.tan (fov / 2)
    let d := (u * half * near) • iso.xAxis + (v * half * near) • iso.yAxis
      + near • iso.zAxis
    (⟨iso.pos, normalize3 d⟩, rng)

/-- Modelled from the spec: a point of the aperture disk of the given radius,
from two uniform draws via polar (uniform-area) sampling, in the lens plane. -/
noncomputable def diskOffset (radius u1 u2 : ℝ) : Vec3 :=
  (radius * Real.sqrt u1 * Real.cos (2 * Real.pi * u2),
   radius * Real.sqrt u1 * Real.sin (2 * Real.pi * u2),
   0)

/-- Modelled from the spec (Camera Model, defocus decorator): take the wrapped
camera's ray, compute the focal point at the focus distance along it, sample a
point of the aperture disk centered on the original origin, and return the ray
from that point toward the focal point. -/
noncomputable def DefocusCamera (base : Camera) (focus aperture : ℝ) : Camera :=
  fun u v rng =>
    let br := base u v rng
    let r := br.1
    let rng1 := br.2
    let focal := r.origin + focus • r.dir
    let o := r.origin + diskOffset aperture (rng1 0) (rng1 1)
    (⟨o, normalize3 (focal - o)⟩, fun i => rng1 (i + 2))

/-- A renderable sphere: center, radius, emissive radiance and reflectivity
(`sample::Object`). -/
structure Object where
  center : Vec3
  radius : ℝ
  emissive : Color
  reflectivity : ℝ

/-- Embedding of the `Object::new(x, y, z, radius, emissive, reflectivity)`
constructor used by `main.rs`. -/
def Object.new (x y z radius : ℝ) (emissive : Color) (reflectivity : ℝ) : Object :=
  { center := (x, y, z), radius := radius, emissive := emissive
    reflectivity := reflectivity }

/-- The scene (`sample::World`): objects, ambient radiance and the
self-intersection margin. -/
structure World where
  objects : List Object
  ambient : Color
  margin : ℝ

/-- Per-pixel sampling configuration (`sample::SampleParams`). -/
structure SampleParams where
  samples : Nat
  bounce_limit : Nat

/-- One frame's immutable render inputs (`pipe::FrameData`). -/
structure FrameData where
  world : World
  cam : Camera
  params : SampleParams

/-- Modelled from the spec (Path Integrator, step 1): distance along the ray to
the sphere, solving the ray/sphere quadratic; the nearest root beyond the
margin is taken, a degenerate zero-length direction is treated as a miss. -/
noncomputable def hitDist (margin : ℝ) (r : Ray3) (o : Object) : Option ℝ :=
  let a := dot r.dir r.dir
  if a = 0 then none
  else
    let oc := r.origin - o.center
    let b := dot oc r.dir
    let c := dot oc oc - o.radius ^ 2
    let disc := b ^ 2 - a * c
    if disc < 0 then none
    else
      let t1 := (-b - Real.sqrt disc) / a
      let t2 := (-b + Real.sqrt disc) / a
      if margin < t1 then some t1
      else if margin < t2 then some t2
      else none

/-- Keep the nearer of an optional current hit and a new hit. -/
noncomputable def nearer (acc : Option (Object × ℝ)) (x : Object × ℝ) : Option (Object × ℝ) :=
  match acc with
  | none => some x
  | some y => if x.2 < y.2 then some x else some y

/-- Modelled from the spec: intersect the ray against all scene objects and
take the nearest hit beyond the margin distance. -/
noncomputable def nearestHit (w : World) (r : Ray3) : Option (Object × ℝ) :=
  w.objects.foldl
    (fun acc o =>
      match hitDist w.margin r o with
      | none => acc
      | some t => nearer acc (o, t))
    none

/-- Modelled from the spec (Path Integrator): recursive stochastic radiance
estimate.  No hit returns the ambient radiance; a hit contributes the emissive
term and, when the bounce limit is positive and the uniform draw falls below
the reflectivity, adds the radiance of a continuation ray produced by the
scattering model.  The scattering model itself is a parameter (the spec leaves
it to the implementer, naming cosine-weighted hemispherical sampling as the
baseline); the claims hold for every scattering model. -/
noncomputable def trace (w : World) (scatter : Object → Ray3 → ℝ → ℝ → ℝ → Ray3) :
    Nat → Ray3 → Rng → Color
  | 0, ray, _ =>
    match nearestHit w ray with
    | none => w.ambient
    | some (o, _) => o.emissive
  | k + 1, ray, rng =>
    match nearestHit w ray with
    | none => w.ambient
    | some (o, t) =>
      if rng 0 < o.reflectivity then
        o.emissive + trace w scatter k (scatter o ray t (rng 1) (rng 2)) (fun i => rng (i + 3))
      else o.emissive

/-- Linearization of one 8-bit sRGB channel, modelling palette's
`into_format::<f32>().into_linear()`. -/
noncomputable def srgb8ToLinear (n : Nat) : ℝ :=
  let c : ℝ := n / 255
  if c ≤ 0.04045 then c / 12.92 else ((c + 0.055) / 1.055) ^ (2.4 : ℝ)

/-- The named color `DARKSLATEGREY` (47, 79, 79), linearized. -/
noncomputable def darkslategrey : Color :=
  (srgb8ToLinear 47, srgb8ToLinear 79, srgb8ToLinear 79)

/-- Embedding of the per-frame scene built by `per_frame_world` in
`src/main.rs`: six spheres animated by the frame angle, dark-slate-grey
ambient scaled by 0.4, and margin 0.00001. -/
noncomputable def worldFor (frame_count index : Nat) : World :=
  let angle : ℝ := 2 * Real.pi * ((index : ℝ) / (frame_count : ℝ))
  { objects := [
      Object.new 0 (-2) 0 3 ((0.25 : ℝ) • ((0.894, 0.345, 0.925) : Color)) 0.5,
      Object.new 0 3 0 1.5 ((0.9 : ℝ) • ((0.8, 1, 0.8) : Color)) 0.75,
      Object.new 4 (-2.25 * Real.sin angle) 0 1
        (((0.75 : ℝ) * ((Real.cos angle + 1) / 2)) • ((1, 0.2, 0.2) : Color)) 0.95,
      Object.new (-4) (2.25 * Real.sin angle) 0 1
        (((0.75 : ℝ) * ((Real.sin angle + 1) / 2)) • ((0.2, 0.2, 1) : Color)) 0.95,
      Object.new (4 * Real.sin angle) 0 (4 * Real.cos angle) 1 ((0, 0, 0) : Color) 0.95,
      Object.new (-4 * Real.sin angle) 0 (-4 * Real.cos angle) 1 ((0, 0, 0) : Color) 0.05]
    ambient := (0.4 : ℝ) • darkslategrey
    margin := 0.00001 }

/-- The error type of the pipeline run (`failure::Error` collapses to an
opaque token: the claims only distinguish error from success). -/
inductive PipeError where
  | err : PipeError
deriving DecidableEq

/-- Embedding of the frame generator `per_frame_world` of `src/main.rs`: at or
past `frame_count` the animation is over and the generator returns none;
otherwise it builds the frame camera (a defocus decorator at focus distance 14
over the perspective camera at eye (12, 8, 12) looking at the origin) and the
frame world.  The aperture radius of `DefocusCamera::new` is fixed inside
`camera.rs`, which is not in the snapshot, so it is left as a parameter. -/
noncomputable def per_frame_world (frame_count : Nat) (sp : SampleParams)
    (aperture : ℝ) (index : Nat) : Except PipeError (Option FrameData) :=
  if frame_count ≤ index then Except.ok none
  else Except.ok (some
    { world := worldFor frame_count index
      cam := DefocusCamera
        (PerspectiveCamera (observerFrame (12, 8, 12) (0, 0, 0) (0, 1, 0))
          (Real.pi / 4) 0.1 100) 14 aperture
      params := sp })

theorem lt_div_succ_mul (m b : Nat) (hb : 0 < b) : m < (m / b + 1) * b := by
  have h1 := Nat.div_add_mod m b
  have h2 := Nat.mod_lt m hb
  have h3 : (m / b + 1) * b = b * (m / b) + b := by ring
  omega

theorem le_ceilCount_mul (w b : Nat) (hb : 0 < b) : w ≤ ((w + b - 1) / b) * b := by
  have h := lt_div_succ_mul (w + b - 1) b hb
  have h3 : ((w + b - 1) / b + 1) * b = (w + b - 1) / b * b + b := by ring
  omega

theorem tile_index_eq (b w x i : Nat) (h1 : i * b ≤ x)
    (h2 : x < i * b + min b (w - i * b)) : i = x / b := by
  have h3 : x < i * b + b := lt_of_lt_of_le h2 (by
    have := Nat.min_le_left b (w - i * b); omega)
  exact (Nat.div_eq_of_lt_le h1 (by rw [Nat.succ_mul]; exact h3)).symm

theorem tile_covers_div (b w x : Nat) (hb : 0 < b) (hxw : x < w) :
    x / b * b ≤ x ∧ x < x / b * b + min b (w - x / b * b) ∧ x / b < (w + b - 1) / b := by
  have h3 : x / b * b ≤ x := Nat.div_mul_le_self x b
  refine ⟨h3, ?_, ?_⟩
  · have h1 : x < (x / b + 1) * b := lt_div_succ_mul x b hb
    have h2 : (x / b + 1) * b = x / b * b + b := by ring
    rcases Nat.le_total b (w - x / b * b) with hc | hc
    · rw [Nat.min_eq_left hc]; omega
    · rw [Nat.min_eq_right hc]; omega
  · rw [Nat.div_lt_iff_lt_mul hb]
    exact lt_of_lt_of_le hxw (le_ceilCount_mul w b hb)

theorem mem_tilesOf {p : RenderParams} {t : TileRect} :
    t ∈ p.tilesOf ↔ ∃ i j, i < p.xTiles ∧ j < p.yTiles ∧ t = p.mkTile i j := by
  simp only [RenderParams.tilesOf, List.mem_flatMap, List.mem_map, List.mem_range]
  constructor
  · rintro ⟨j, hj, i, hi, rfl⟩; exact ⟨i, j, hi, hj, rfl⟩
  · rintro ⟨i, j, hi, hj, rfl⟩; exact ⟨j, hj, i, hi, rfl⟩

theorem mkTile_left_lt_width {p : RenderParams} {i : Nat} (hts : 0 < p.tile_size)
    (hi : i < p.xTiles) : i * p.tile_size < p.width := by
  by_contra h
  have hle : (i + 1) * p.tile_size ≤ p.width + p.tile_size - 1 := by
    have := (Nat.le_div_iff_mul_le hts).mp hi
    exact this
  have hsm : (i + 1) * p.tile_size = i * p.tile_size + p.tile_size := by ring
  omega

theorem mkTile_top_lt_height {p : RenderParams} {j : Nat} (hts : 0 < p.tile_size)
    (hj : j < p.yTiles) : j * p.tile_size < p.height := by
  by_contra h
  have hle : (j + 1) * p.tile_size ≤ p.height + p.tile_size - 1 := by
    have := (Nat.le_div_iff_mul_le hts).mp hj
    exact this
  have hsm : (j + 1) * p.tile_size = j * p.tile_size + p.tile_size := by ring
  omega

/-- C1: for every frame and every width/height/tile_size combination, the
dispatched tiles partition the pixel grid exactly: every pixel of the frame is
covered by exactly one tile, every tile is the clipped intersection of a
tile_size-square with the frame (so it lies inside the frame), and interior
tiles measure tile_size in each direction. -/
theorem tiles_partition_frame (p : RenderParams) (hts : 0 < p.tile_size) :
    (∀ x y, x < p.width → y < p.height →
      ∃! t : TileRect, t ∈ p.tilesOf ∧ t.covers x y) ∧
    (∀ t ∈ p.tilesOf,
      t.width = min p.tile_size (p.width - t.left) ∧
      t.height = min p.tile_size (p.height - t.top) ∧
      t.left + t.width ≤ p.width ∧ t.top + t.height ≤ p.height ∧
      (t.left + p.tile_size ≤ p.width → t.width = p.tile_size) ∧
      (t.top + p.tile_size ≤ p.height → t.height = p.tile_size)) := by
  constructor
  · intro x y hx hy
    obtain ⟨hxle, hxlt, hxi⟩ := tile_covers_div p.tile_size p.width x hts hx
    obtain ⟨hyle, hylt, hyi⟩ := tile_covers_div p.tile_size p.height y hts hy
    refine ⟨p.mkTile (x / p.tile_size) (y / p.tile_size), ⟨?_, ?_⟩, ?_⟩
    · exact mem_tilesOf.mpr ⟨x / p.tile_size, y / p.tile_size, hxi, hyi, rfl⟩
    · exact ⟨hxle, hxlt, hyle, hylt⟩
    · rintro t ⟨hmem, hcov⟩
      obtain ⟨i, j, hi, hj, rfl⟩ := mem_tilesOf.mp hmem
      obtain ⟨c1, c2, c3, c4⟩ := hcov
      have hieq : i = x / p.tile_size := tile_index_eq p.tile_size p.width x i c1 c2
      have hjeq : j = y / p.tile_size := tile_index_eq p.tile_size p.height y j c3 c4
      rw [hieq, hjeq]
  · intro t hmem
    obtain ⟨i, j, hi, hj, rfl⟩ := mem_tilesOf.mp hmem
    have hlw : i * p.tile_size < p.width := mkTile_left_lt_width hts hi
    have hth : j * p.tile_size < p.height := mkTile_top_lt_height hts hj
    refine ⟨rfl, rfl, ?_, ?_, ?_, ?_⟩
    · have := Nat.min_le_right p.tile_size (p.width - i * p.tile_size)
      simp only [RenderParams.mkTile]
      omega
    · have := Nat.min_le_right p.tile_size (p.height - j * p.tile_size)
      simp only [RenderParams.mkTile]
      omega
    · intro h
      simp only [RenderParams.mkTile] at h ⊢
      exact Nat.min_eq_left (by omega)
    · intro h
      simp only [RenderParams.mkTile] at h ⊢
      exact Nat.min_eq_left (by omega)

theorem tiles_partition_frame_witness :
    0 < (2 : Nat) ∧
    ((∀ x y, x < 5 → y < 3 →
      ∃! t : TileRect, t ∈ RenderParams.tilesOf ⟨5, 3, 2, 0, 0⟩ ∧ t.covers x y) ∧
    (∀ t ∈ RenderParams.tilesOf ⟨5, 3, 2, 0, 0⟩,
      t.width = min 2 (5 - t.left) ∧
      t.height = min 2 (3 - t.top) ∧
      t.left + t.width ≤ 5 ∧ t.top + t.height ≤ 3 ∧
      (t.left + 2 ≤ 5 → t.width = 2) ∧
      (t.top + 2 ≤ 3 → t.height = 2))) :=
  ⟨by decide, tiles_partition_frame ⟨5, 3, 2, 0, 0⟩ (by decide)⟩

theorem ceilDivNat_eq (a b : Nat) (hb : 0 < b) :
    ((a + b - 1) / b : Nat) = ⌈(a : ℚ) / (b : ℚ)⌉₊ := by
  rcases Nat.eq_zero_or_pos a with ha | ha
  · subst ha
    simp [Nat.div_eq_of_lt (by omega : b - 1 < b)]
  · have hq1 : 1 ≤ (a + b - 1) / b := by
      rw [Nat.le_div_iff_mul_le hb]; omega
    have hub : (a + b - 1) / b * b ≤ a + b - 1 := Nat.div_mul_le_self _ _
    have hlb : a + b - 1 < ((a + b - 1) / b + 1) * b := lt_div_succ_mul _ b hb
    have h3 : ((a + b - 1) / b + 1) * b = (a + b - 1) / b * b + b := by ring
    have hqb : a ≤ (a + b - 1) / b * b := by omega
    have hlow : ((a + b - 1) / b - 1) * b < a := by
      have h4 : ((a + b - 1) / b - 1) * b + b = (a + b - 1) / b * b := by
        have h5 : (a + b - 1) / b - 1 + 1 = (a + b - 1) / b := by omega
        calc ((a + b - 1) / b - 1) * b + b = ((a + b - 1) / b - 1 + 1) * b := by ring
          _ = (a + b - 1) / b * b := by rw [h5]
      omega
    have hbq : (0 : ℚ) < (b : ℚ) := by exact_mod_cast hb
    symm
    rw [Nat.ceil_eq_iff (by omega : (a + b - 1) / b ≠ 0)]
    constructor
    · rw [lt_div_iff₀ hbq]
      exact_mod_cast hlow
    · rw [div_le_iff₀ hbq]
      exact_mod_cast hqb

theorem foldl_tile_ready_received (P : Type) (l : List (Tile P)) (f : Frame P) :
    (l.foldl Frame.tile_ready f).received = f.received + l.length ∧
    (l.foldl Frame.tile_ready f).total = f.total := by
  induction l generalizing f with
  | nil => simp
  | cons t rest ih =>
    obtain ⟨h1, h2⟩ := ih (f.tile_ready t)
    simp only [List.foldl_cons, List.length_cons]
    refine ⟨?_, ?_⟩
    · rw [h1]; simp [Frame.tile_ready]; omega
    · rw [h2]; rfl

/-- C2: tiles-per-frame as reported by the configuration equals
ceil(width/tile_size) * ceil(height/tile_size), and a Frame Assembly Buffer
built from the same configuration reports done exactly when the number of
distinct tiles delivered through tile_ready equals that value, never before. -/
theorem tiles_per_frame_is_done (p : RenderParams) (hts : 0 < p.tile_size)
    (P : Type) (ts : List (Tile P)) (hnd : ts.Nodup) :
    p.tiles_per_frame = ⌈(p.width : ℚ) / (p.tile_size : ℚ)⌉₊ *
      ⌈(p.height : ℚ) / (p.tile_size : ℚ)⌉₊ ∧
    ((ts.foldl Frame.tile_ready (p.uninitialized_frame P)).is_done = true ↔
      ts.length = p.tiles_per_frame) := by
  constructor
  · rw [RenderParams.tiles_per_frame, RenderParams.xTiles, RenderParams.yTiles,
      ceilDivNat_eq p.width p.tile_size hts, ceilDivNat_eq p.height p.tile_size hts]
  · obtain ⟨h1, h2⟩ := foldl_tile_ready_received P ts (p.uninitialized_frame P)
    rw [Frame.is_done, beq_iff_eq, h1, h2]
    simp [RenderParams.uninitialized_frame]

theorem tiles_per_frame_is_done_witness :
    (0 < (1 : Nat) ∧
      List.Nodup [(⟨0, 0, 0, 1, 1, fun _ _ => 0⟩ : Tile Nat)]) ∧
    (RenderParams.tiles_per_frame ⟨1, 1, 1, 0, 0⟩ =
      ⌈(1 : ℚ) / (1 : ℚ)⌉₊ * ⌈(1 : ℚ) / (1 : ℚ)⌉₊ ∧
    ((List.foldl Frame.tile_ready (RenderParams.uninitialized_frame ⟨1, 1, 1, 0, 0⟩ Nat)
        [(⟨0, 0, 0, 1, 1, fun _ _ => 0⟩ : Tile Nat)]).is_done = true ↔
      List.length [(⟨0, 0, 0, 1, 1, fun _ _ => 0⟩ : Tile Nat)] =
        RenderParams.tiles_per_frame ⟨1, 1, 1, 0, 0⟩)) :=
  ⟨⟨by decide, by simp⟩,
    tiles_per_frame_is_done ⟨1, 1, 1, 0, 0⟩ (by decide) Nat _ (by simp)⟩

theorem on_tile_inv (p : RenderParams) (P : Type) (st : ConsumerState P) (t : Tile P)
    (cnt : Nat → Nat) (hinv : ConsInv p.tiles_per_frame cnt st)
    (hb : cnt t.frame_num + 1 ≤ p.tiles_per_frame) :
    ConsInv p.tiles_per_frame (fun n => if n = t.frame_num then cnt n + 1 else cnt n)
      (on_tile p st t) := by
  have hm := hinv t.frame_num
  have hf0 : ((st.frames t.frame_num).getD (p.uninitialized_frame P)).received
        = cnt t.frame_num ∧
      ((st.frames t.frame_num).getD (p.uninitialized_frame P)).total
        = p.tiles_per_frame := by
    cases hsf : st.frames t.frame_num with
    | none =>
      have h0 := hm.2.1 hsf
      have hc0 : cnt t.frame_num = 0 := by omega
      simp [hsf, RenderParams.uninitialized_frame, hc0]
    | some f =>
      have hsome := hm.1 f hsf
      simp [hsf, hsome.1, hsome.2.1]
  have hcm : cnt t.frame_num < p.tiles_per_frame := by omega
  have hsavedm : st.saved.count t.frame_num = 0 := by
    have hsv := (hinv t.frame_num).2.2
    rw [if_neg] at hsv
    · exact hsv
    · rintro ⟨h1, _⟩; omega
  by_cases hdone : cnt t.frame_num + 1 = p.tiles_per_frame
  · have hd : (((st.frames t.frame_num).getD (p.uninitialized_frame P)).tile_ready t).is_done
        = true := by
      simp [Frame.tile_ready, Frame.is_done, hf0.1, hf0.2, hdone]
    intro n
    by_cases hn : n = t.frame_num
    · refine ⟨?_, ?_, ?_⟩
      · intro f hf
        simp [on_tile, hd, hn] at hf
      · intro _
        simp only [hn, eq_self_iff_true, if_true]
        right; omega
      · simp only [on_tile, hd, if_true, hn, eq_self_iff_true]
        rw [List.count_append]
        have hone : List.count t.frame_num [t.frame_num] = 1 := by simp
        rw [hsavedm, hone, if_pos]
        exact ⟨by omega, by omega⟩
    · refine ⟨?_, ?_, ?_⟩
      · intro f hf
        simp only [on_tile, hd, if_true, if_neg hn] at hf
        have hold := (hinv n).1 f hf
        simpa [hn] using hold
      · intro hf
        simp only [on_tile, hd, if_true, if_neg hn] at hf
        have hold := (hinv n).2.1 hf
        simpa [hn] using hold
      · simp only [on_tile, hd, if_true]
        rw [List.count_append]
        have hzero : List.count n [t.frame_num] = 0 := by
          simp [List.count_singleton]
          omega
        rw [hzero]
        simpa [hn] using (hinv n).2.2
  · have hd : (((st.frames t.frame_num).getD (p.uninitialized_frame P)).tile_ready t).is_done
        = false := by
      simp [Frame.tile_ready, Frame.is_done, hf0.1, hf0.2]
      omega
    intro n
    by_cases hn : n = t.frame_num
    · refine ⟨?_, ?_, ?_⟩
      · intro f hf
        simp only [on_tile, hd, Bool.false_eq_true, if_false, hn, eq_self_iff_true,
          if_true, Option.some.injEq] at hf
        subst hf
        simp only [hn, eq_self_iff_true, if_true]
        exact ⟨by simp [Frame.tile_ready, hf0.1], by simp [Frame.tile_ready, hf0.2],
          by omega, by omega⟩
      · intro hf
        simp [on_tile, hd, hn] at hf
      · simp only [on_tile, hd, Bool.false_eq_true, if_false, hn, eq_self_iff_true,
          if_true]
        rw [hsavedm, if_neg]
        rintro ⟨h1, _⟩; omega
    · refine ⟨?_, ?_, ?_⟩
      · intro f hf
        simp only [on_tile, hd, Bool.false_eq_true, if_false, if_neg hn] at hf
        have hold := (hinv n).1 f hf
        simpa [hn] using hold
      · intro hf
        simp only [on_tile, hd, Bool.false_eq_true, if_false, if_neg hn] at hf
        have hold := (hinv n).2.1 hf
        simpa [hn] using hold
      · simp only [on_tile, hd, Bool.false_eq_true, if_false]
        simpa [hn] using (hinv n).2.2

theorem foldl_on_tile_inv (p : RenderParams) (P : Type) :
    ∀ (ts : List (Tile P)) (st : ConsumerState P) (cnt : Nat → Nat),
    ConsInv p.tiles_per_frame cnt st →
    (∀ n, cnt n + arrivals ts n ≤ p.tiles_per_frame) →
    ConsInv p.tiles_per_frame (fun n => cnt n + arrivals ts n)
      (ts.foldl (on_tile p) st) := by
  intro ts
  induction ts with
  | nil =>
    intro st cnt hinv hb
    simpa [arrivals] using hinv
  | cons t rest ih =>
    intro st cnt hinv hb
    have hb1 : cnt t.frame_num + 1 ≤ p.tiles_per_frame := by
      have hh := hb t.frame_num
      simp [arrivals, List.countP_cons] at hh
      omega
    have hstep := on_tile_inv p P st t cnt hinv hb1
    have hb2 : ∀ n, (if n = t.frame_num then cnt n + 1 else cnt n) + arrivals rest n
        ≤ p.tiles_per_frame := by
      intro n
      have hh := hb n
      by_cases hn : n = t.frame_num
      · rw [if_pos hn, hn]
        rw [hn] at hh
        simp [arrivals, List.countP_cons] at hh
        simp only [arrivals] at hh ⊢
        omega
      · rw [if_neg hn]
        have hne : (t.frame_num == n) = false := by
          simp only [beq_eq_false_iff_ne, ne_eq]
          omega
        simp only [arrivals, List.countP_cons, hne, if_false, Nat.add_zero,
          cond_false] at hh
        simpa [arrivals] using hh
    have hrest := ih (on_tile p st t) _ hstep hb2
    have hfun : (fun n => (if n = t.frame_num then cnt n + 1 else cnt n) + arrivals rest n)
        = fun n => cnt n + arrivals (t :: rest) n := by
      funext n
      by_cases hn : n = t.frame_num
      · rw [if_pos hn, hn]
        simp only [arrivals, List.countP_cons, beq_self_eq_true, if_true, cond_true]
        omega
      · have hne : (t.frame_num == n) = false := by
          simp only [beq_eq_false_iff_ne, ne_eq]
          omega
        rw [if_neg hn]
        simp only [arrivals, List.countP_cons, hne, Bool.false_eq_true, if_false,
          cond_false, Nat.add_zero]
    rw [hfun] at hrest
    exact hrest

/-- C7: after every successful return of the tile consumer, the frames map
holds a Frame Assembly Buffer for frame n exactly while n is partially
assembled (at least one tile arrived, fewer than tiles-per-frame arrived), and
frame n has been saved to disk exactly once just when all its tiles arrived
(the buffer being dropped at that same call).  The hypothesis that no frame
receives more than tiles-per-frame tiles is the pipeline's dispatch
guarantee. -/
theorem frames_map_lifecycle (p : RenderParams) (P : Type) (ts : List (Tile P))
    (hb : ∀ n, arrivals ts n ≤ p.tiles_per_frame) :
    ∀ n, (((ts.foldl (on_tile p) (consumerStart P)).frames n).isSome ↔
        (0 < arrivals ts n ∧ arrivals ts n < p.tiles_per_frame)) ∧
      ((ts.foldl (on_tile p) (consumerStart P)).saved.count n =
        if arrivals ts n = p.tiles_per_frame ∧ 0 < p.tiles_per_frame then 1 else 0) := by
  have hstart : ConsInv p.tiles_per_frame (fun _ => 0) (consumerStart P) := by
    intro n
    refine ⟨?_, ?_, ?_⟩
    · intro f hf; simp [consumerStart] at hf
    · intro _; left; rfl
    · simp only [consumerStart, List.count_nil]
      rw [if_neg]
      rintro ⟨h1, h2⟩; omega
  have h := foldl_on_tile_inv p P ts (consumerStart P) (fun _ => 0) hstart
    (by intro n; simpa using hb n)
  simp only [ConsInv, Nat.zero_add] at h
  intro n
  obtain ⟨h1, h2, h3⟩ := h n
  refine ⟨?_, by simpa using h3⟩
  constructor
  · intro hs
    obtain ⟨f, hf⟩ := Option.isSome_iff_exists.mp hs
    have := h1 f hf
    constructor
    · have := this.2.2.1; omega
    · have := this.2.2.2; omega
  · rintro ⟨ha, hb'⟩
    cases hsf : (ts.foldl (on_tile p) (consumerStart P)).frames n with
    | none =>
      have := h2 hsf
      simp at this
      omega
    | some f => simp [hsf]

theorem frames_map_lifecycle_witness :
    (∀ n, arrivals [(⟨0, 0, 0, 1, 1, fun _ _ => 0⟩ : Tile Nat)] n ≤
      RenderParams.tiles_per_frame ⟨1, 1, 1, 0, 0⟩) ∧
    (∀ n, ((((List.foldl (on_tile ⟨1, 1, 1, 0, 0⟩) (consumerStart Nat)
          [(⟨0, 0, 0, 1, 1, fun _ _ => 0⟩ : Tile Nat)])).frames n).isSome ↔
        (0 < arrivals [(⟨0, 0, 0, 1, 1, fun _ _ => 0⟩ : Tile Nat)] n ∧
          arrivals [(⟨0, 0, 0, 1, 1, fun _ _ => 0⟩ : Tile Nat)] n <
            RenderParams.tiles_per_frame ⟨1, 1, 1, 0, 0⟩)) ∧
      ((List.foldl (on_tile ⟨1, 1, 1, 0, 0⟩) (consumerStart Nat)
          [(⟨0, 0, 0, 1, 1, fun _ _ => 0⟩ : Tile Nat)]).saved.count n =
        if arrivals [(⟨0, 0, 0, 1, 1, fun _ _ => 0⟩ : Tile Nat)] n =
            RenderParams.tiles_per_frame ⟨1, 1, 1, 0, 0⟩ ∧
            0 < RenderParams.tiles_per_frame ⟨1, 1, 1, 0, 0⟩ then 1 else 0)) := by
  have hb : ∀ n, arrivals [(⟨0, 0, 0, 1, 1, fun _ _ => 0⟩ : Tile Nat)] n ≤
      RenderParams.tiles_per_frame ⟨1, 1, 1, 0, 0⟩ := by
    intro n
    simp only [arrivals, List.countP_cons, List.countP_nil]
    split <;> decide
  exact ⟨hb, frames_map_lifecycle ⟨1, 1, 1, 0, 0⟩ Nat _ hb⟩

theorem foldl_hit_mem (w : World) (r : Ray3) :
    ∀ (l : List Object) (acc : Option (Object × ℝ)),
    (∀ x, acc = some x → x.1 ∈ w.objects) → (∀ o ∈ l, o ∈ w.objects) →
    ∀ x, l.foldl (fun acc o =>
        match hitDist w.margin r o with
        | none => acc
        | some t => nearer acc (o, t)) acc = some x →
      x.1 ∈ w.objects := by
  intro l
  induction l with
  | nil =>
    intro acc hacc _ x hx
    exact hacc x hx
  | cons o rest ih =>
    intro acc hacc hmem x hx
    simp only [List.foldl_cons] at hx
    refine ih _ ?_ (fun o2 ho2 => hmem o2 (List.mem_cons_of_mem _ ho2)) x hx
    intro y hy
    cases hdist : hitDist w.margin r o with
    | none =>
      rw [hdist] at hy
      exact hacc y hy
    | some t =>
      rw [hdist] at hy
      cases acc with
      | none =>
        simp only [nearer, Option.some.injEq] at hy
        rw [← hy]
        exact hmem o (List.mem_cons_self o rest)
      | some z =>
        simp only [nearer] at hy
        split at hy
        · simp only [Option.some.injEq] at hy
          rw [← hy]
          exact hmem o (List.mem_cons_self o rest)
        · simp only [Option.some.injEq] at hy
          rw [← hy]
          exact hacc z rfl

theorem nearestHit_mem (w : World) (r : Ray3) (o : Object) (t : ℝ)
    (h : nearestHit w r = some (o, t)) : o ∈ w.objects :=
  foldl_hit_mem w r w.objects none
    (by intro x hx; exact absurd hx (by simp))
    (fun o2 ho2 => ho2) (o, t) h

/-- C3: for every ray that hits, the path integrator with reflectivity 0 on
every scene object returns exactly the hit object's emissive radiance (for any
bounce budget, any RNG stream with nonnegative draws, and any scattering
model); and with reflectivity 1 on every object but a bounce limit of 0 it
returns only the emissive term of the first hit, with no further bounce and no
ambient term added at the forced termination. -/
theorem trace_reflectivity_extremes :
    (∀ (w : World) (scatter : Object → Ray3 → ℝ → ℝ → ℝ → Ray3) (ray : Ray3)
      (rng : Rng) (k : Nat) (o : Object) (t : ℝ),
      (∀ ob ∈ w.objects, ob.reflectivity = 0) → (∀ i, 0 ≤ rng i) →
      nearestHit w ray = some (o, t) → trace w scatter k ray rng = o.emissive) ∧
    (∀ (w : World) (scatter : Object → Ray3 → ℝ → ℝ → ℝ → Ray3) (ray : Ray3)
      (rng : Rng) (o : Object) (t : ℝ),
      (∀ ob ∈ w.objects, ob.reflectivity = 1) →
      nearestHit w ray = some (o, t) → trace w scatter 0 ray rng = o.emissive) := by
  constructor
  · intro w scatter ray rng k o t hrefl hrng hhit
    cases k with
    | zero => simp [trace, hhit]
    | succ k =>
      have ho := nearestHit_mem w ray o t hhit
      have h0 : o.reflectivity = 0 := hrefl o ho
      simp only [trace, hhit]
      rw [if_neg]
      rw [h0]
      exact not_lt.mpr (hrng 0)
  · intro w scatter ray rng o t hrefl hhit
    simp [trace, hhit]

theorem dot_smul_self (f : ℝ) (d : Vec3) : dot (f • d) (f • d) = f ^ 2 * dot d d := by
  simp only [dot, Prod.smul_fst, Prod.smul_snd, smul_eq_mul]
  ring

theorem normalize3_smul (f : ℝ) (d : Vec3) (hf : 0 < f) (hd : dot d d = 1) :
    normalize3 (f • d) = d := by
  rw [normalize3, dot_smul_self, hd, mul_one, Real.sqrt_sq hf.le, smul_smul,
    inv_mul_cancel₀ (ne_of_gt hf), one_smul]

theorem diskOffset_zero (u1 u2 : ℝ) : diskOffset 0 u1 u2 = ((0 : ℝ), (0 : ℝ), (0 : ℝ)) := by
  simp [diskOffset]

/-- C4: the defocus camera decorator with aperture radius 0 returns, for every
pixel coordinate and every RNG stream, a ray identical to the one produced by
the wrapped base camera on the same inputs (for any base camera emitting
unit-length directions and any positive focus distance). -/
theorem defocus_zero_aperture (base : Camera) (focus u v : ℝ) (rng : Rng)
    (hf : 0 < focus)
    (hunit : dot (base u v rng).1.dir (base u v rng).1.dir = 1) :
    (DefocusCamera base focus 0 u v rng).1 = (base u v rng).1 := by
  simp only [DefocusCamera]
  rw [diskOffset_zero]
  have hzero : ((base u v rng).1.origin + (((0 : ℝ), (0 : ℝ), (0 : ℝ)) : Vec3))
      = (base u v rng).1.origin := by
    have h0 : (((0 : ℝ), (0 : ℝ), (0 : ℝ)) : Vec3) = (0 : Vec3) := rfl
    rw [h0, add_zero]
  rw [hzero]
  have hsub : (base u v rng).1.origin + focus • (base u v rng).1.dir
      - (base u v rng).1.origin = focus • (base u v rng).1.dir :=
    add_sub_cancel_left _ _
  rw [hsub, normalize3_smul focus _ hf hunit]

theorem defocus_zero_aperture_witness :
    ((0 : ℝ) < 14 ∧
      dot ((fun (_ _ : ℝ) (rng : Rng) => ((⟨(0, 0, 0), (0, 0, 1)⟩ : Ray3), rng))
          0 0 (fun _ => 0)).1.dir
        ((fun (_ _ : ℝ) (rng : Rng) => ((⟨(0, 0, 0), (0, 0, 1)⟩ : Ray3), rng))
          0 0 (fun _ => 0)).1.dir = 1) ∧
    (DefocusCamera (fun (_ _ : ℝ) (rng : Rng) => ((⟨(0, 0, 0), (0, 0, 1)⟩ : Ray3), rng))
        14 0 0 0 (fun _ => 0)).1 =
      ((fun (_ _ : ℝ) (rng : Rng) => ((⟨(0, 0, 0), (0, 0, 1)⟩ : Ray3), rng))
        0 0 (fun _ => 0)).1 :=
  ⟨⟨by norm_num, by norm_num [dot]⟩,
    defocus_zero_aperture _ 14 0 0 _ (by norm_num) (by norm_num [dot])⟩

theorem trace_reflectivity_extremes_witness :
    ((∀ ob ∈ (⟨[⟨(0, 0, 0), 1, (1, 0, 0), 0⟩], (0, 0, 0), 1 / 100000⟩ : World).objects,
        ob.reflectivity = 0) ∧
      (∀ i : Nat, (0 : ℝ) ≤ (fun _ => (0 : ℝ)) i) ∧
      nearestHit ⟨[⟨(0, 0, 0), 1, (1, 0, 0), 0⟩], (0, 0, 0), 1 / 100000⟩
        ⟨(0, 0, -5), (0, 0, 1)⟩ = some (⟨(0, 0, 0), 1, (1, 0, 0), 0⟩, 4) ∧
      (∀ ob ∈ (⟨[⟨(0, 0, 0), 1, (1, 0, 0), 1⟩], (0, 0, 0), 1 / 100000⟩ : World).objects,
        ob.reflectivity = 1) ∧
      nearestHit ⟨[⟨(0, 0, 0), 1, (1, 0, 0), 1⟩], (0, 0, 0), 1 / 100000⟩
        ⟨(0, 0, -5), (0, 0, 1)⟩ = some (⟨(0, 0, 0), 1, (1, 0, 0), 1⟩, 4)) ∧
    trace ⟨[⟨(0, 0, 0), 1, (1, 0, 0), 0⟩], (0, 0, 0), 1 / 100000⟩
      (fun _ r _ _ _ => r) 5 ⟨(0, 0, -5), (0, 0, 1)⟩ (fun _ => 0) = (1, 0, 0) ∧
    trace ⟨[⟨(0, 0, 0), 1, (1, 0, 0), 1⟩], (0, 0, 0), 1 / 100000⟩
      (fun _ r _ _ _ => r) 0 ⟨(0, 0, -5), (0, 0, 1)⟩ (fun _ => 0) = (1, 0, 0) := by
  have hrefl0 : ∀ ob ∈ (⟨[⟨(0, 0, 0), 1, (1, 0, 0), 0⟩], (0, 0, 0), 1 / 100000⟩ : World).objects,
      ob.reflectivity = 0 := by
    intro ob hob
    simp only [List.mem_singleton] at hob
    subst hob
    rfl
  have hrefl1 : ∀ ob ∈ (⟨[⟨(0, 0, 0), 1, (1, 0, 0), 1⟩], (0, 0, 0), 1 / 100000⟩ : World).objects,
      ob.reflectivity = 1 := by
    intro ob hob
    simp only [List.mem_singleton] at hob
    subst hob
    rfl
  have hrng : ∀ i : Nat, (0 : ℝ) ≤ (fun _ => (0 : ℝ)) i := fun _ => le_refl 0
  have hhit0 : nearestHit ⟨[⟨(0, 0, 0), 1, (1, 0, 0), 0⟩], (0, 0, 0), 1 / 100000⟩
      ⟨(0, 0, -5), (0, 0, 1)⟩ = some (⟨(0, 0, 0), 1, (1, 0, 0), 0⟩, 4) := by
    simp only [nearestHit, List.foldl_cons, List.foldl_nil, hitDist, dot, nearer,
      Prod.mk_sub_mk]
    norm_num
  have hhit1 : nearestHit ⟨[⟨(0, 0, 0), 1, (1, 0, 0), 1⟩], (0, 0, 0), 1 / 100000⟩
      ⟨(0, 0, -5), (0, 0, 1)⟩ = some (⟨(0, 0, 0), 1, (1, 0, 0), 1⟩, 4) := by
    simp only [nearestHit, List.foldl_cons, List.foldl_nil, hitDist, dot, nearer,
      Prod.mk_sub_mk]
    norm_num
  refine ⟨⟨hrefl0, hrng, hhit0, hrefl1, hhit1⟩, ?_, ?_⟩
  · exact trace_reflectivity_extremes.1 _ (fun _ r _ _ _ => r) _ (fun _ => 0) 5 _ 4
      hrefl0 hrng hhit0
  · exact trace_reflectivity_extremes.2 _ (fun _ r _ _ _ => r) _ (fun _ => 0) _ 4
      hrefl1 hhit1

theorem frameLoop_range (E F : Type) (gen : Nat → Except E (Option F)) :
    ∀ (j start fuel : Nat),
    (∀ m, m < j → ∃ f, gen (start + m) = Except.ok (some f)) →
    gen (start + j) = Except.ok none → j < fuel →
    frameLoop gen start fuel = Except.ok (List.range' start j) := by
  intro j
  induction j with
  | zero =>
    intro start fuel hsome hnone hfuel
    cases fuel with
    | zero => omega
    | succ fuel =>
      rw [Nat.add_zero] at hnone
      simp [frameLoop, hnone]
  | succ j ih =>
    intro start fuel hsome hnone hfuel
    cases fuel with
    | zero => omega
    | succ fuel =>
      obtain ⟨f, hf⟩ := hsome 0 (by omega)
      rw [Nat.add_zero] at hf
      have hrec := ih (start + 1) fuel
        (fun m hm => by
          have hs := hsome (m + 1) (by omega)
          rwa [show start + (m + 1) = start + 1 + m by omega] at hs)
        (by rwa [show start + 1 + j = start + (j + 1) by omega])
        (by omega)
      simp only [frameLoop, hf, hrec]
      rw [List.range'_succ]

/-- C5: the pipeline calls the frame generator at consecutive indices from 0
and stops at the first index answering none, treating it as clean exhaustion
(an Ok result); with the generator of `main.rs`, which answers none exactly at
indices at or past frame_count, exactly the frames 0 .. frame_count - 1 are
produced. -/
theorem frame_production :
    (∀ (E F : Type) (gen : Nat → Except E (Option F)) (j fuel : Nat),
      (∀ m, m < j → ∃ f, gen m = Except.ok (some f)) →
      gen j = Except.ok none → j < fuel →
      frameLoop gen 0 fuel = Except.ok (List.range j)) ∧
    (∀ (frame_count : Nat) (sp : SampleParams) (aperture : ℝ),
      frameLoop (per_frame_world frame_count sp aperture) 0 (frame_count + 1) =
        Except.ok (List.range frame_count)) := by
  have hgen : ∀ (E F : Type) (gen : Nat → Except E (Option F)) (j fuel : Nat),
      (∀ m, m < j → ∃ f, gen m = Except.ok (some f)) →
      gen j = Except.ok none → j < fuel →
      frameLoop gen 0 fuel = Except.ok (List.range j) := by
    intro E F gen j fuel hsome hnone hfuel
    rw [List.range_eq_range']
    exact frameLoop_range E F gen j 0 fuel
      (fun m hm => by simpa using hsome m hm) (by simpa using hnone) hfuel
  refine ⟨hgen, ?_⟩
  intro frame_count sp aperture
  refine hgen PipeError FrameData _ frame_count (frame_count + 1) ?_ ?_ (by omega)
  · intro m hm
    refine ⟨{ world := worldFor frame_count m
              cam := DefocusCamera
                (PerspectiveCamera (observerFrame (12, 8, 12) (0, 0, 0) (0, 1, 0))
                  (Real.pi / 4) 0.1 100) 14 aperture
              params := sp }, ?_⟩
    rw [per_frame_world, if_neg (by omega)]
  · rw [per_frame_world, if_pos (by omega)]

theorem frame_production_witness :
    ((∀ m, m < 2 → ∃ f, (fun i => if i < 2 then Except.ok (some i)
        else (Except.ok none : Except Unit (Option Nat))) m = Except.ok (some f)) ∧
      (fun i => if i < 2 then Except.ok (some i)
        else (Except.ok none : Except Unit (Option Nat))) 2 = Except.ok none ∧
      2 < 3) ∧
    frameLoop (fun i => if i < 2 then Except.ok (some i)
      else (Except.ok none : Except Unit (Option Nat))) 0 3 = Except.ok (List.range 2) := by
  have h1 : ∀ m, m < 2 → ∃ f, (fun i => if i < 2 then Except.ok (some i)
      else (Except.ok none : Except Unit (Option Nat))) m = Except.ok (some f) := by
    intro m hm
    exact ⟨m, by simp [hm]⟩
  have h2 : (fun i => if i < 2 then Except.ok (some i)
      else (Except.ok none : Except Unit (Option Nat))) 2 = Except.ok none := by norm_num
  exact ⟨⟨h1, h2, by norm_num⟩, frame_production.1 Unit Nat _ 2 3 h1 h2 (by norm_num)⟩

/-- C9: every object of every world the generator of `main.rs` produces for an
accepted frame index satisfies the data-model invariant: positive radius and
reflectivity within the unit interval. -/
theorem world_objects_invariant (frame_count index : Nat) (h : index < frame_count) :
    ∀ o ∈ (worldFor frame_count index).objects,
      0 < o.radius ∧ 0 ≤ o.reflectivity ∧ o.reflectivity ≤ 1 := by
  intro o ho
  simp only [worldFor, List.mem_cons, List.not_mem_nil, or_false] at ho
  rcases ho with rfl | rfl | rfl | rfl | rfl | rfl <;>
    exact ⟨by norm_num [Object.new], by norm_num [Object.new], by norm_num [Object.new]⟩

theorem world_objects_invariant_witness :
    0 < 1 ∧ ∀ o ∈ (worldFor 1 0).objects,
      0 < o.radius ∧ 0 ≤ o.reflectivity ∧ o.reflectivity ≤ 1 :=
  ⟨by norm_num, world_objects_invariant 1 0 (by norm_num)⟩

/-- C10: the frame generator of `main.rs` is infallible: for every index it
answers Ok, and it answers Ok none exactly at indices at or past frame_count,
so the pipeline's generation-error path is unreachable in this program. -/
theorem per_frame_world_infallible (frame_count : Nat) (sp : SampleParams)
    (aperture : ℝ) (index : Nat) :
    (∃ v, per_frame_world frame_count sp aperture index = Except.ok v) ∧
    (per_frame_world frame_count sp aperture index = Except.ok none ↔
      frame_count ≤ index) := by
  by_cases h : frame_count ≤ index
  · rw [per_frame_world, if_pos h]
    exact ⟨⟨none, rfl⟩, by simp [h]⟩
  · rw [per_frame_world, if_neg h]
    refine ⟨⟨_, rfl⟩, ?_⟩
    constructor
    · intro he
      exact absurd he (by simp)
    · intro hle
      exact absurd hle h

theorem drainInto_ok (E T : Type) (sink : T → Except E Unit)
    (hsink : ∀ t, sink t = Except.ok ()) :
    ∀ (l : List T) (st : PipeState T),
    drainInto sink st l = Except.ok { st with consumed := st.consumed ++ l } := by
  intro l
  induction l with
  | nil => intro st; simp [drainInto]
  | cons t rest ih =>
    intro st
    simp only [drainInto, hsink t]
    rw [ih]
    congr 1
    simp

theorem drainInto_error (E T : Type) (sink : T → Except E Unit) :
    ∀ (l : List T) (st : PipeState T) (e : E),
    drainInto sink st l = Except.error e → ∃ t, sink t = Except.error e := by
  intro l
  induction l with
  | nil =>
    intro st e h
    simp [drainInto] at h
  | cons t rest ih =>
    intro st e h
    simp only [drainInto] at h
    cases hs : sink t with
    | error e2 =>
      rw [hs] at h
      simp only [Except.error.injEq] at h
      exact ⟨t, by rw [hs, h]⟩
    | ok u =>
      rw [hs] at h
      exact ih _ e h

theorem pipeline_exit_aux (E F T : Type) (gen : Nat → Except E (Option F))
    (tilesFor : Nat → F → List T) (sink : T → Except E Unit) (tick : Nat → TickResult)
    (ready : Nat → Nat) (hsink : ∀ t, sink t = Except.ok ())
    (hgen : ∀ i, ∃ r, gen i = Except.ok r) :
    ∀ (k : Nat) (st : PipeState T),
    (∀ j, j < k → tick (st.iter + j) = TickResult.Run) →
    tick (st.iter + k) = TickResult.Exit →
    PipeInv st →
    ∃ st2, render_pipeline gen tilesFor sink tick ready (k + 1) st = Except.ok st2 ∧
      st2.outstanding = [] ∧ st2.consumed = st2.dispatchedTiles ∧
      st2.dispatchedFrames.length ≤ st.dispatchedFrames.length + k := by
  intro k
  induction k with
  | zero =>
    intro st hrun hexit hinv
    rw [Nat.add_zero] at hexit
    rw [render_pipeline]
    simp only [drainInto_ok E T sink hsink, hexit]
    refine ⟨_, rfl, rfl, ?_, by simp⟩
    simp only [PipeInv] at hinv ⊢
    rw [List.append_assoc, List.take_append_drop]
    exact hinv
  | succ k ih =>
    intro st hrun hexit hinv
    have h0 : tick st.iter = TickResult.Run := by
      have hh := hrun 0 (by omega)
      rwa [Nat.add_zero] at hh
    have hinv1 : (st.consumed ++ st.outstanding.take (ready st.iter))
        ++ st.outstanding.drop (ready st.iter) = st.dispatchedTiles := by
      rw [List.append_assoc, List.take_append_drop]
      exact hinv
    have hrun1 : ∀ j, j < k → tick (st.iter + 1 + j) = TickResult.Run := by
      intro j hj
      rw [show st.iter + 1 + j = st.iter + (j + 1) from by omega]
      exact hrun (j + 1) (by omega)
    have hexit1 : tick (st.iter + 1 + k) = TickResult.Exit := by
      rw [show st.iter + 1 + k = st.iter + (k + 1) from by omega]
      exact hexit
    rw [render_pipeline]
    simp only [drainInto_ok E T sink hsink, h0]
    cases hex : st.exhausted with
    | true =>
      rw [if_pos rfl]
      cases hempty : (st.outstanding.drop (ready st.iter)).isEmpty with
      | true =>
        rw [if_pos rfl]
        refine ⟨_, rfl, ?_, ?_, by simp⟩
        · simpa using List.isEmpty_iff.mp hempty
        · show st.consumed ++ st.outstanding.take (ready st.iter) = st.dispatchedTiles
          rw [List.isEmpty_iff.mp hempty, List.append_nil] at hinv1
          exact hinv1
      | false =>
        rw [if_neg Bool.false_ne_true]
        obtain ⟨st2, hrp, ho, hc, hlen⟩ := ih
          { iter := st.iter + 1, next := st.next, exhausted := true
            outstanding := st.outstanding.drop (ready st.iter)
            consumed := st.consumed ++ st.outstanding.take (ready st.iter)
            dispatchedFrames := st.dispatchedFrames
            dispatchedTiles := st.dispatchedTiles }
          hrun1 hexit1 hinv1
        refine ⟨st2, hrp, ho, hc, ?_⟩
        simp only [] at hlen
        omega
    | false =>
      rw [if_neg Bool.false_ne_true]
      obtain ⟨r, hr⟩ := hgen st.next
      cases r with
      | none =>
        simp only [hr]
        obtain ⟨st2, hrp, ho, hc, hlen⟩ := ih
          { iter := st.iter + 1, next := st.next, exhausted := true
            outstanding := st.outstanding.drop (ready st.iter)
            consumed := st.consumed ++ st.outstanding.take (ready st.iter)
            dispatchedFrames := st.dispatchedFrames
            dispatchedTiles := st.dispatchedTiles }
          hrun1 hexit1 hinv1
        refine ⟨st2, hrp, ho, hc, ?_⟩
        simp only [] at hlen
        omega
      | some f =>
        simp only [hr]
        obtain ⟨st2, hrp, ho, hc, hlen⟩ := ih
          { iter := st.iter + 1, next := st.next + 1, exhausted := false
            outstanding := st.outstanding.drop (ready st.iter) ++ tilesFor st.next f
            consumed := st.consumed ++ st.outstanding.take (ready st.iter)
            dispatchedFrames := st.dispatchedFrames ++ [st.next]
            dispatchedTiles := st.dispatchedTiles ++ tilesFor st.next f }
          hrun1 hexit1
          (by
            simp only [PipeInv, ← List.append_assoc]
            rw [hinv1])
        refine ⟨st2, hrp, ho, hc, ?_⟩
        simp only [List.length_append, List.length_singleton] at hlen
        omega

/-- C6: if the cancellation source answers Run for the first k polls and Exit
at poll k, the pipeline observes the signal at that poll, dispatches no
further frames (at most one frame per Run poll was dispatched), lets every
already-dispatched tile run to completion and delivers it to the sink, and
returns success, whether or not any frame completed. -/
theorem pipeline_cancellation (E F T : Type) (gen : Nat → Except E (Option F))
    (tilesFor : Nat → F → List T) (sink : T → Except E Unit) (tick : Nat → TickResult)
    (ready : Nat → Nat) (k : Nat)
    (hsink : ∀ t, sink t = Except.ok ())
    (hgen : ∀ i, ∃ r, gen i = Except.ok r)
    (hrun : ∀ j, j < k → tick j = TickResult.Run)
    (hexit : tick k = TickResult.Exit) :
    ∃ st2, render_pipeline gen tilesFor sink tick ready (k + 1) (pipeStart T) =
        Except.ok st2 ∧
      st2.outstanding = [] ∧ st2.consumed = st2.dispatchedTiles ∧
      st2.dispatchedFrames.length ≤ k := by
  obtain ⟨st2, hrp, ho, hc, hlen⟩ := pipeline_exit_aux E F T gen tilesFor sink tick ready
    hsink hgen k (pipeStart T)
    (by intro j hj; simpa [pipeStart] using hrun j hj)
    (by simpa [pipeStart] using hexit)
    (by simp [PipeInv, pipeStart])
  exact ⟨st2, hrp, ho, hc, by simpa [pipeStart] using hlen⟩

theorem pipeline_cancellation_witness :
    ((∀ t : Nat, (fun _ : Nat => (Except.ok () : Except Unit Unit)) t = Except.ok ()) ∧
      (∀ i, ∃ r, (fun _ : Nat => (Except.ok (some ()) : Except Unit (Option Unit))) i
        = Except.ok r) ∧
      (∀ j, j < 1 → (fun i => if i = 0 then TickResult.Run else TickResult.Exit) j
        = TickResult.Run) ∧
      (fun i => if i = 0 then TickResult.Run else TickResult.Exit) 1 = TickResult.Exit) ∧
    ∃ st2, render_pipeline (fun _ : Nat => (Except.ok (some ()) : Except Unit (Option Unit)))
        (fun i _ => [i, i + 10]) (fun _ : Nat => (Except.ok () : Except Unit Unit))
        (fun i => if i = 0 then TickResult.Run else TickResult.Exit)
        (fun _ => 1) (1 + 1) (pipeStart Nat) = Except.ok st2 ∧
      st2.outstanding = [] ∧ st2.consumed = st2.dispatchedTiles ∧
      st2.dispatchedFrames.length ≤ 1 := by
  have hsink : ∀ t : Nat, (fun _ : Nat => (Except.ok () : Except Unit Unit)) t
      = Except.ok () := fun _ => rfl
  have hgen : ∀ i, ∃ r, (fun _ : Nat => (Except.ok (some ()) : Except Unit (Option Unit))) i
      = Except.ok r := fun _ => ⟨some (), rfl⟩
  have hrun : ∀ j, j < 1 → (fun i => if i = 0 then TickResult.Run else TickResult.Exit) j
      = TickResult.Run := by decide
  have hexit : (fun i => if i = 0 then TickResult.Run else TickResult.Exit) 1
      = TickResult.Exit := by decide
  exact ⟨⟨hsink, hgen, hrun, hexit⟩,
    pipeline_cancellation Unit Unit Nat _ (fun i _ => [i, i + 10])
      _ _ (fun _ => 1) 1 hsink hgen hrun hexit⟩

theorem pipeline_error_origin (E F T : Type) (gen : Nat → Except E (Option F))
    (tilesFor : Nat → F → List T) (sink : T → Except E Unit) (tick : Nat → TickResult)
    (ready : Nat → Nat) :
    ∀ (fuel : Nat) (st : PipeState T) (e : E),
    render_pipeline gen tilesFor sink tick ready fuel st = Except.error e →
    (∃ i, gen i = Except.error e) ∨ ∃ t, sink t = Except.error e := by
  intro fuel
  induction fuel with
  | zero =>
    intro st e h
    simp [render_pipeline] at h
  | succ fuel ih =>
    intro st e h
    rw [render_pipeline] at h
    cases hd : drainInto sink
        { st with outstanding := st.outstanding.drop (ready st.iter) }
        (st.outstanding.take (ready st.iter)) with
    | error e2 =>
      rw [hd] at h
      simp only [Except.error.injEq] at h
      obtain ⟨t, ht⟩ := drainInto_error E T sink _ _ e2 hd
      exact Or.inr ⟨t, by rw [ht, h]⟩
    | ok st1 =>
      rw [hd] at h
      simp only [] at h
      cases htick : tick st.iter with
      | Exit =>
        rw [htick] at h
        simp only [] at h
        exact Or.inr (drainInto_error E T sink _ _ e h)
      | Run =>
        rw [htick] at h
        simp only [] at h
        cases hex : st1.exhausted with
        | true =>
          rw [hex, if_pos rfl] at h
          cases hempty : st1.outstanding.isEmpty with
          | true =>
            rw [hempty, if_pos rfl] at h
            exact absurd h (by simp)
          | false =>
            rw [hempty, if_neg Bool.false_ne_true] at h
            exact ih _ e h
        | false =>
          rw [hex, if_neg Bool.false_ne_true] at h
          cases hg : gen st1.next with
          | error e2 =>
            rw [hg] at h
            simp only [Except.error.injEq] at h
            exact Or.inl ⟨st1.next, by rw [hg, h]⟩
          | ok r =>
            rw [hg] at h
            cases r with
            | none => exact ih _ e h
            | some f => exact ih _ e h

theorem pipeline_gen_error (E F T : Type) (gen : Nat → Except E (Option F))
    (tilesFor : Nat → F → List T) (sink : T → Except E Unit) (tick : Nat → TickResult)
    (ready : Nat → Nat) (hsink : ∀ t, sink t = Except.ok ())
    (htick : ∀ i, tick i = TickResult.Run) :
    ∀ (j : Nat) (st : PipeState T) (e : E), st.exhausted = false →
    (∀ m, m < j → ∃ f, gen (st.next + m) = Except.ok (some f)) →
    gen (st.next + j) = Except.error e →
    render_pipeline gen tilesFor sink tick ready (j + 1) st = Except.error e := by
  intro j
  induction j with
  | zero =>
    intro st e hex hsome herr
    rw [Nat.add_zero] at herr
    rw [render_pipeline]
    simp only [drainInto_ok E T sink hsink, htick st.iter]
    rw [hex, if_neg Bool.false_ne_true]
    simp only [herr]
  | succ j ih =>
    intro st e hex hsome herr
    obtain ⟨f, hf⟩ := hsome 0 (by omega)
    rw [Nat.add_zero] at hf
    rw [render_pipeline]
    simp only [drainInto_ok E T sink hsink, htick st.iter]
    rw [hex, if_neg Bool.false_ne_true]
    simp only [hf]
    apply ih
    · rfl
    · intro m hm
      have hs := hsome (m + 1) (by omega)
      rwa [show st.next + (m + 1) = st.next + 1 + m from by omega] at hs
    · rwa [show st.next + (j + 1) = st.next + 1 + j from by omega] at herr

theorem pipeline_sink_error (E F T : Type) (gen : Nat → Except E (Option F))
    (tilesFor : Nat → F → List T) (sink : T → Except E Unit) (tick : Nat → TickResult)
    (ready : Nat → Nat) (fuel : Nat) (st : PipeState T) (t : T) (rest : List T) (e : E)
    (hout : st.outstanding = t :: rest) (hready : ready st.iter = 1)
    (hsink : sink t = Except.error e) :
    render_pipeline gen tilesFor sink tick ready (fuel + 1) st = Except.error e := by
  rw [render_pipeline, hout, hready]
  simp only [List.take_succ_cons, List.take_zero, List.drop_succ_cons, List.drop_zero,
    drainInto, hsink]

/-- C8: every error the pipeline returns is an error returned by the frame
generator or by the tile sink (nothing is invented and nothing swallowed);
a generator error at the first not-yet-produced index propagates out of the
run unchanged and immediately (no retry); and a sink error on a delivered tile
likewise propagates out unchanged. -/
theorem pipeline_error_propagation :
    (∀ (E F T : Type) (gen : Nat → Except E (Option F)) (tilesFor : Nat → F → List T)
      (sink : T → Except E Unit) (tick : Nat → TickResult) (ready : Nat → Nat)
      (fuel : Nat) (st : PipeState T) (e : E),
      render_pipeline gen tilesFor sink tick ready fuel st = Except.error e →
      (∃ i, gen i = Except.error e) ∨ ∃ t, sink t = Except.error e) ∧
    (∀ (E F T : Type) (gen : Nat → Except E (Option F)) (tilesFor : Nat → F → List T)
      (sink : T → Except E Unit) (tick : Nat → TickResult) (ready : Nat → Nat)
      (j : Nat) (e : E),
      (∀ t, sink t = Except.ok ()) → (∀ i, tick i = TickResult.Run) →
      (∀ m, m < j → ∃ f, gen m = Except.ok (some f)) →
      gen j = Except.error e →
      render_pipeline gen tilesFor sink tick ready (j + 1) (pipeStart T) =
        Except.error e) ∧
    (∀ (E F T : Type) (gen : Nat → Except E (Option F)) (tilesFor : Nat → F → List T)
      (sink : T → Except E Unit) (tick : Nat → TickResult) (ready : Nat → Nat)
      (fuel : Nat) (st : PipeState T) (t : T) (rest : List T) (e : E),
      st.outstanding = t :: rest → ready st.iter = 1 → sink t = Except.error e →
      render_pipeline gen tilesFor sink tick ready (fuel + 1) st = Except.error e) := by
  refine ⟨pipeline_error_origin, ?_, pipeline_sink_error⟩
  intro E F T gen tilesFor sink tick ready j e hsink htick hsome herr
  refine pipeline_gen_error E F T gen tilesFor sink tick ready hsink htick j
    (pipeStart T) e rfl ?_ ?_
  · intro m hm
    simpa [pipeStart] using hsome m hm
  · simpa [pipeStart] using herr

theorem pipeline_error_propagation_witness :
    ((∀ t : Unit, (fun _ : Unit => (Except.ok () : Except Nat Unit)) t = Except.ok ()) ∧
      (∀ i, (fun _ : Nat => TickResult.Run) i = TickResult.Run) ∧
      (∀ m, m < 0 → ∃ f : Unit, (fun _ : Nat => (Except.error 7 : Except Nat (Option Unit))) m
        = Except.ok (some f)) ∧
      (fun _ : Nat => (Except.error 7 : Except Nat (Option Unit))) 0 = Except.error 7) ∧
    render_pipeline (fun _ : Nat => (Except.error 7 : Except Nat (Option Unit)))
      (fun _ _ => ([] : List Unit)) (fun _ : Unit => (Except.ok () : Except Nat Unit))
      (fun _ => TickResult.Run) (fun _ => 0) (0 + 1) (pipeStart Unit) = Except.error 7 :=
  ⟨⟨fun _ => rfl, fun _ => rfl, fun m hm => absurd hm (by omega), rfl⟩,
    pipeline_error_propagation.2.1 Nat Unit Unit _ (fun _ _ => ([] : List Unit)) _ _
      (fun _ => 0) 0 7 (fun _ => rfl) (fun _ => rfl)
      (fun m hm => absurd hm (by omega)) rfl⟩
